import Mathlib

/-!
Verification of the scene-synchronized media assembly core of the `slop`
repository: a shallow embedding in Lean 4 of the duration-from-alignment
algorithm (`slop/stitch.py`), the chunked speech synthesis path
(`slop/voice.py`), the image batch generator (`slop/images.py`) and the
default configuration (`slop/config.py`), together with theorems settling
the frozen claims about them.  Times in seconds are modelled as rationals.
-/

namespace Slop

/-- `Scene` from `slop/scriptgen.py`: a pydantic model with a narration
`script` and an `image_description`. -/
structure Scene where
  script : String
  image_description : String
deriving DecidableEq

instance : Inhabited Scene := ⟨⟨"", ""⟩⟩

/-- The character-level alignment dictionary consumed by
`_compute_durations_from_alignment` in `slop/stitch.py`.  Each field is an
`Option` because the Python code reads the keys with `dict.get` and checks
`isinstance(..., list)`; `none` models a missing (or non-list) key. -/
structure Alignment where
  characters : Option (List Char)
  character_start_times_seconds : Option (List ℚ)
  character_end_times_seconds : Option (List ℚ)

/-- The distinct `ValueError`s raised by `_compute_durations_from_alignment`
(`slop/stitch.py`, lines 34-69), in source order. -/
inductive StitchError where
  /-- "alignment must be provided and be a dict with character-level timings" -/
  | noAlignment
  /-- "scenes must be provided" -/
  | noScenes
  /-- "alignment missing required character-level keys" -/
  | missingKeys
  /-- "alignment character arrays must be same non-zero length" -/
  | badLengths
  /-- "scene index range is out of alignment bounds" -/
  | outOfBounds
deriving DecidableEq

/-- Python's `str.strip()`: remove leading and trailing whitespace
characters. -/
def pyStrip (s : String) : String :=
  ⟨((s.data.dropWhile Char.isWhitespace).reverse.dropWhile
    Char.isWhitespace).reverse⟩

/-- The combined TTS input, `" ".join(s.script for s in scenes).strip()`
(`slop/stitch.py`, line 48).  Used only for a length-mismatch warning. -/
def combined_text (scenes : List Scene) : String :=
  pyStrip (String.intercalate " " (scenes.map fun s => s.script))

/-- The scene index-range loop of `_compute_durations_from_alignment`
(`slop/stitch.py`, lines 55-64): a running offset assigns each scene the
range `[offset, offset + len(script))` and, except after the final scene,
skips one character for the single-space separator. -/
def rangesFrom (offset : Nat) : List Scene → List (Nat × Nat)
  | [] => []
  | [s] => [(offset, offset + s.script.length)]
  | s :: s2 :: rest =>
      (offset, offset + s.script.length) ::
        rangesFrom (offset + s.script.length + 1) (s2 :: rest)

/-- The duration loop of `_compute_durations_from_alignment`
(`slop/stitch.py`, lines 66-73): for each range, fail if it is degenerate or
exceeds the characters array, otherwise emit
`max(0.1, end_times[end_idx-1] - start_times[start_idx])`.  The Python check
`start_idx < 0` is vacuous here because offsets are naturals. -/
def durationsLoop (charsLen : Nat) (start_times end_times : List ℚ) :
    List (Nat × Nat) → Except StitchError (List ℚ)
  | [] => .ok []
  | r :: rs =>
      if r.2 ≤ r.1 ∨ charsLen < r.2 then
        .error .outOfBounds
      else
        match durationsLoop charsLen start_times end_times rs with
        | .error e => .error e
        | .ok ds =>
            .ok ((max (1/10 : ℚ)
              (end_times.getD (r.2 - 1) 0 - start_times.getD r.1 0)) :: ds)

/-- `_compute_durations_from_alignment` from `slop/stitch.py` (lines 23-81).
The `audio_duration_fallback` argument only feeds a log line in the source
and does not influence the result.  The combined-text length comparison at
line 49 only logs a warning and is likewise not part of the value. -/
def compute_durations_from_alignment (alignment : Option Alignment)
    (scenes : List Scene) (audio_duration_fallback : ℚ) :
    Except StitchError (List ℚ) :=
  match alignment with
  | none => .error .noAlignment
  | some a =>
      if scenes.isEmpty then .error .noScenes
      else
        match a.characters, a.character_start_times_seconds,
            a.character_end_times_seconds with
        | some characters, some start_times, some end_times =>
            if characters.length = start_times.length ∧
                start_times.length = end_times.length ∧
                0 < characters.length then
              durationsLoop characters.length start_times end_times
                (rangesFrom 0 scenes)
            else .error .badLengths
        | _, _, _ => .error .missingKeys

/-- The character offset at which scene `i` starts in the combined text:
the total length of the preceding scripts plus one separator per preceding
scene. -/
def sceneStart (scenes : List Scene) (i : Nat) : Nat :=
  ((scenes.take i).map fun s => s.script.length).sum + i

theorem rangesFrom_cons (offset : Nat) (s : Scene) (rest : List Scene) :
    rangesFrom offset (s :: rest) =
      (offset, offset + s.script.length) ::
        rangesFrom (offset + s.script.length + 1) rest := by
  cases rest <;> rfl

theorem rangesFrom_length (scenes : List Scene) :
    ∀ offset, (rangesFrom offset scenes).length = scenes.length := by
  induction scenes with
  | nil => intro o; rfl
  | cons s rest ih => intro o; rw [rangesFrom_cons]; simp [ih]

theorem sceneStart_zero (scenes : List Scene) : sceneStart scenes 0 = 0 := by
  simp [sceneStart]

theorem sceneStart_cons_succ (s : Scene) (rest : List Scene) (i : Nat) :
    sceneStart (s :: rest) (i + 1) = s.script.length + 1 + sceneStart rest i := by
  simp [sceneStart, List.take_succ_cons]
  omega

theorem rangesFrom_getD (scenes : List Scene) :
    ∀ offset i, i < scenes.length →
      (rangesFrom offset scenes).getD i (0, 0) =
        (offset + sceneStart scenes i,
          offset + sceneStart scenes i + (scenes.getD i default).script.length) := by
  induction scenes with
  | nil => intro o i h; simp at h
  | cons s rest ih =>
      intro o i h
      rw [rangesFrom_cons]
      cases i with
      | zero => simp [sceneStart_zero]
      | succ i =>
          have h' : i < rest.length := by simpa using h
          have := ih (o + s.script.length + 1) i h'
          simp only [List.getD_cons_succ, this, sceneStart_cons_succ,
            Prod.mk.injEq]
          omega

theorem durationsLoop_ok (charsLen : Nat) (st et : List ℚ)
    (rs : List (Nat × Nat)) (h : ∀ r ∈ rs, r.1 < r.2 ∧ r.2 ≤ charsLen) :
    durationsLoop charsLen st et rs =
      .ok (rs.map fun r =>
        max (1/10 : ℚ) (et.getD (r.2 - 1) 0 - st.getD r.1 0)) := by
  induction rs with
  | nil => rfl
  | cons r rs ih =>
      obtain ⟨h1, h2⟩ := h r (List.mem_cons_self r rs)
      have hcond : ¬(r.2 ≤ r.1 ∨ charsLen < r.2) := by omega
      rw [durationsLoop, if_neg hcond,
        ih (fun x hx => h x (List.mem_cons_of_mem r hx))]
      simp

theorem durationsLoop_error (charsLen : Nat) (st et : List ℚ)
    (rs : List (Nat × Nat)) (h : ∃ r ∈ rs, r.2 ≤ r.1 ∨ charsLen < r.2) :
    durationsLoop charsLen st et rs = .error .outOfBounds := by
  induction rs with
  | nil => simp at h
  | cons r rs ih =>
      by_cases hr : r.2 ≤ r.1 ∨ charsLen < r.2
      · rw [durationsLoop, if_pos hr]
      · obtain ⟨x, hx, hbad⟩ := h
        rcases List.mem_cons.mp hx with hxr | hxs
        · subst hxr; exact absurd hbad hr
        · rw [durationsLoop, if_neg hr, ih ⟨x, hxs, hbad⟩]

theorem compute_durations_eq_loop (a : Alignment) (scenes : List Scene)
    (fb : ℚ) (characters : List Char) (start_times end_times : List ℚ)
    (hc : a.characters = some characters)
    (hs : a.character_start_times_seconds = some start_times)
    (he : a.character_end_times_seconds = some end_times)
    (hlen1 : characters.length = start_times.length)
    (hlen2 : start_times.length = end_times.length)
    (hpos : 0 < characters.length)
    (hne : scenes ≠ []) :
    compute_durations_from_alignment (some a) scenes fb =
      durationsLoop characters.length start_times end_times
        (rangesFrom 0 scenes) := by
  have hemp : scenes.isEmpty = false := by
    cases scenes with
    | nil => exact absurd rfl hne
    | cons x xs => rfl
  rw [compute_durations_from_alignment]
  rw [hemp]
  simp only [Bool.false_eq_true, if_false]
  rw [hc, hs, he]
  exact if_pos ⟨hlen1, hlen2, hpos⟩

/-- C1: for every alignment whose three parallel arrays have equal non-zero
length and every non-empty scene list whose ranges fit within the character
array (each scene's range `[o, o + len(script_i))` is a valid non-degenerate
subrange), `_compute_durations_from_alignment` returns exactly one duration
per scene; scene `i`'s range starts at the running offset
`sceneStart scenes i` (lengths of preceding scripts plus one skipped
separator per preceding scene) and ends at `o + len(script_i)`;
`duration_i = max(0.1, end_times[end_idx - 1] - start_times[start_idx])`;
and every returned duration is strictly positive, even when a scene's timing
range is zero-width or reversed. -/
theorem c1_compute_durations_per_scene
    (a : Alignment) (scenes : List Scene) (fb : ℚ)
    (characters : List Char) (start_times end_times : List ℚ)
    (hc : a.characters = some characters)
    (hs : a.character_start_times_seconds = some start_times)
    (he : a.character_end_times_seconds = some end_times)
    (hlen1 : characters.length = start_times.length)
    (hlen2 : start_times.length = end_times.length)
    (hpos : 0 < characters.length)
    (hne : scenes ≠ [])
    (hfit : ∀ r ∈ rangesFrom 0 scenes,
      r.1 < r.2 ∧ r.2 ≤ characters.length) :
    ∃ ds, compute_durations_from_alignment (some a) scenes fb = .ok ds ∧
      ds.length = scenes.length ∧
      (∀ i, i < scenes.length →
        (rangesFrom 0 scenes).getD i (0, 0) =
          (sceneStart scenes i,
            sceneStart scenes i + (scenes.getD i default).script.length) ∧
        ds.getD i 0 = max (1/10 : ℚ)
          (end_times.getD
              (sceneStart scenes i +
                (scenes.getD i default).script.length - 1) 0
            - start_times.getD (sceneStart scenes i) 0)) ∧
      ∀ d ∈ ds, 0 < d := by
  refine ⟨_,
    (compute_durations_eq_loop a scenes fb characters start_times end_times
        hc hs he hlen1 hlen2 hpos hne).trans
      (durationsLoop_ok _ _ _ _ hfit), ?_, ?_, ?_⟩
  · simp [rangesFrom_length]
  · intro i hi
    have hr := rangesFrom_getD scenes 0 i hi
    simp only [Nat.zero_add] at hr
    refine ⟨hr, ?_⟩
    have hlt : i < (rangesFrom 0 scenes).length := by
      rw [rangesFrom_length]; exact hi
    have hmlt : i < ((rangesFrom 0 scenes).map fun r =>
        max (1/10 : ℚ) (end_times.getD (r.2 - 1) 0 -
          start_times.getD r.1 0)).length := by
      simpa using hlt
    rw [List.getD_eq_getElem _ _ hmlt, List.getElem_map,
      ← List.getD_eq_getElem _ (0, 0) hlt, hr]
  · intro d hd
    obtain ⟨r, _, rfl⟩ := List.mem_map.mp hd
    exact lt_of_lt_of_le (by norm_num) (le_max_left _ _)

/-- Witness for C1 at a concrete input: two scenes "ab" and "c", a four
character alignment over "ab c". -/
theorem c1_compute_durations_per_scene_witness :
    ∃ ds, compute_durations_from_alignment
        (some ⟨some ['a', 'b', ' ', 'c'],
          some [0, 1/2, 1, 3/2], some [1/2, 1, 3/2, 2]⟩)
        [⟨"ab", "x"⟩, ⟨"c", "y"⟩] 0 = .ok ds ∧
      ds.length = ([⟨"ab", "x"⟩, ⟨"c", "y"⟩] : List Scene).length ∧
      (∀ i, i < ([⟨"ab", "x"⟩, ⟨"c", "y"⟩] : List Scene).length →
        (rangesFrom 0 [⟨"ab", "x"⟩, ⟨"c", "y"⟩]).getD i (0, 0) =
          (sceneStart [⟨"ab", "x"⟩, ⟨"c", "y"⟩] i,
            sceneStart [⟨"ab", "x"⟩, ⟨"c", "y"⟩] i +
              (([⟨"ab", "x"⟩, ⟨"c", "y"⟩] : List Scene).getD i
                default).script.length) ∧
        ds.getD i 0 = max (1/10 : ℚ)
          (([(1:ℚ)/2, 1, 3/2, 2].getD
              (sceneStart [⟨"ab", "x"⟩, ⟨"c", "y"⟩] i +
                (([⟨"ab", "x"⟩, ⟨"c", "y"⟩] : List Scene).getD i
                  default).script.length - 1) 0
            - [(0:ℚ), 1/2, 1, 3/2].getD
                (sceneStart [⟨"ab", "x"⟩, ⟨"c", "y"⟩] i) 0))) ∧
      ∀ d ∈ ds, 0 < d :=
  c1_compute_durations_per_scene _ _ 0 _ _ _ rfl rfl rfl rfl rfl
    (by decide) (by decide) (by decide)

/-- C4: `_compute_durations_from_alignment` fails with an error whenever the
alignment's characters, start-time and end-time arrays do not all have the
same length, or the arrays are empty, or a required character-level key is
missing (the single hypothesis below covers all three: it is vacuously true
when a key is `none`); it never returns durations in those cases. -/
theorem c4_invalid_alignment_errors
    (oc : Option (List Char)) (os oe : Option (List ℚ))
    (scenes : List Scene) (fb : ℚ)
    (hbad : ∀ characters start_times end_times,
      oc = some characters → os = some start_times → oe = some end_times →
      ¬(characters.length = start_times.length ∧
        start_times.length = end_times.length ∧ 0 < characters.length)) :
    ∃ e, compute_durations_from_alignment (some ⟨oc, os, oe⟩) scenes fb =
      .error e := by
  by_cases hemp : scenes.isEmpty = true
  · exact ⟨.noScenes, by rw [compute_durations_from_alignment]; simp [hemp]⟩
  · rcases oc with _ | characters
    · exact ⟨.missingKeys, by
        rw [compute_durations_from_alignment]; simp [hemp]⟩
    rcases os with _ | start_times
    · exact ⟨.missingKeys, by
        rw [compute_durations_from_alignment]; simp [hemp]⟩
    rcases oe with _ | end_times
    · exact ⟨.missingKeys, by
        rw [compute_durations_from_alignment]; simp [hemp]⟩
    refine ⟨.badLengths, ?_⟩
    rw [compute_durations_from_alignment]
    simp [hemp, if_neg (hbad characters start_times end_times rfl rfl rfl)]

/-- Witness for C4: a one-entry characters array against two start times. -/
theorem c4_invalid_alignment_errors_witness :
    ∃ e, compute_durations_from_alignment
        (some ⟨some ['a'], some [0, 1], some [0, 1]⟩)
        [⟨"a", "x"⟩] 0 = .error e :=
  c4_invalid_alignment_errors (some ['a']) (some [0, 1]) (some [0, 1])
    [⟨"a", "x"⟩] 0
    (by intro c s e hc hs he h
        obtain ⟨h1, _, _⟩ := h
        cases hc; cases hs
        simp at h1)

/-- C3 counterexample: an alignment whose character array (length 5) is
longer than the concatenated scene text "a b" (length 3); every scene range
still fits, so the code only logs a warning and returns durations instead
of raising. -/
theorem c3_counterexample :
    (combined_text [⟨"a", "x"⟩, ⟨"b", "y"⟩]).length = 3 ∧
    (['a', ' ', 'b', 'q', 'r'] : List Char).length = 5 ∧
    compute_durations_from_alignment
      (some ⟨some ['a', ' ', 'b', 'q', 'r'],
        some [0, 0, 0, 0, 0], some [0, 0, 0, 0, 0]⟩)
      [⟨"a", "x"⟩, ⟨"b", "y"⟩] 0 = .ok [1/10, 1/10] := by
  refine ⟨by decide, rfl, ?_⟩
  have h1 : "a".length = 1 := rfl
  have h2 : "b".length = 1 := rfl
  simp [compute_durations_from_alignment, durationsLoop, rangesFrom, h1, h2]

/-- C3 amended: the computation raises its out-of-bounds error exactly when
some scene's index range is invalid against the characters array — its
exclusive end index exceeds the array length (or the range is degenerate);
a characters array merely longer than the concatenated text does not raise,
it only logs a warning and returns durations for the prefix ranges. -/
theorem c3_amended_out_of_bounds
    (a : Alignment) (scenes : List Scene) (fb : ℚ)
    (characters : List Char) (start_times end_times : List ℚ)
    (hc : a.characters = some characters)
    (hs : a.character_start_times_seconds = some start_times)
    (he : a.character_end_times_seconds = some end_times)
    (hlen1 : characters.length = start_times.length)
    (hlen2 : start_times.length = end_times.length)
    (hpos : 0 < characters.length)
    (hne : scenes ≠ [])
    (hbad : ∃ r ∈ rangesFrom 0 scenes,
      characters.length < r.2 ∨ r.2 ≤ r.1) :
    compute_durations_from_alignment (some a) scenes fb =
      .error .outOfBounds := by
  rw [compute_durations_eq_loop a scenes fb characters start_times end_times
    hc hs he hlen1 hlen2 hpos hne]
  obtain ⟨r, hr, hb⟩ := hbad
  exact durationsLoop_error _ _ _ _ ⟨r, hr, hb.symm⟩

/-- Witness for C3's amended theorem: a single scene "abc" against a
two-character alignment; the scene's end index 3 exceeds the array length
2 and the computation fails. -/
theorem c3_amended_out_of_bounds_witness :
    compute_durations_from_alignment
      (some ⟨some ['a', 'b'], some [0, 0], some [0, 0]⟩)
      [⟨"abc", "x"⟩] 0 = .error .outOfBounds :=
  c3_amended_out_of_bounds _ _ 0 ['a', 'b'] [0, 0] [0, 0]
    rfl rfl rfl rfl rfl (by decide) (by decide)
    ⟨(0, 3), by
      have h1 : "abc".length = 3 := rfl
      simp [rangesFrom, h1]⟩

theorem pairwise_le_getD (l : List ℚ) (h : l.Pairwise (· ≤ ·)) (i j : Nat)
    (hij : i ≤ j) (hj : j < l.length) : l.getD i 0 ≤ l.getD j 0 := by
  rcases Nat.eq_or_lt_of_le hij with rfl | hlt
  · exact le_refl _
  · rw [List.getD_eq_getElem _ _ (lt_trans hlt hj),
      List.getD_eq_getElem _ _ hj]
    exact List.pairwise_iff_getElem.mp h i j (lt_trans hlt hj) hj hlt

theorem sum_max_le_telescope (st et : List ℚ) (rs : List (Nat × Nat)) :
    ∀ r0 : Nat × Nat,
      (∀ r ∈ r0 :: rs, st.getD r.1 0 ≤ et.getD (r.2 - 1) 0) →
      List.Chain (fun r1 r2 => et.getD (r1.2 - 1) 0 ≤ st.getD r2.1 0) r0 rs →
      ((r0 :: rs).map fun r =>
          max (1/10 : ℚ) (et.getD (r.2 - 1) 0 - st.getD r.1 0)).sum ≤
        et.getD (((r0 :: rs).getLast (List.cons_ne_nil r0 rs)).2 - 1) 0 -
          st.getD r0.1 0 + (r0 :: rs).length * (1/10) := by
  induction rs with
  | nil =>
      intro r0 hmem _
      have h0 := hmem r0 (List.mem_cons_self r0 [])
      simp only [List.map_cons, List.map_nil, List.sum_cons, List.sum_nil,
        List.getLast_singleton, List.length_cons, List.length_nil]
      have hb : max (1/10 : ℚ)
          (et.getD (r0.2 - 1) 0 - st.getD r0.1 0) ≤
          (et.getD (r0.2 - 1) 0 - st.getD r0.1 0) + 1/10 := by
        apply max_le <;> linarith
      push_cast
      linarith
  | cons r1 rest ih =>
      intro r0 hmem hchain
      rw [List.chain_cons] at hchain
      obtain ⟨h01, hchain'⟩ := hchain
      have hIH := ih r1 (fun r hr => hmem r (List.mem_cons_of_mem r0 hr))
        hchain'
      have h0 := hmem r0 (List.mem_cons_self r0 _)
      have hb : max (1/10 : ℚ)
          (et.getD (r0.2 - 1) 0 - st.getD r0.1 0) ≤
          (et.getD (r0.2 - 1) 0 - st.getD r0.1 0) + 1/10 := by
        apply max_le <;> linarith
      have hlast : (r0 :: r1 :: rest).getLast
          (List.cons_ne_nil r0 (r1 :: rest)) =
          (r1 :: rest).getLast (List.cons_ne_nil r1 rest) :=
        List.getLast_cons (List.cons_ne_nil r1 rest)
      rw [hlast]
      simp only [List.map_cons, List.sum_cons, List.length_cons] at hIH ⊢
      push_cast at hIH ⊢
      linarith

/-- C2 counterexample: a valid alignment (equal lengths, non-negative,
monotone times) with two one-character scenes and all-zero timings; both
durations are floored to 0.1 so their sum 0.2 exceeds
`end_times[-1] + 0.1 = 0.1`, refuting the claimed bound. -/
theorem c2_counterexample :
    compute_durations_from_alignment
      (some ⟨some ['a', ' ', 'b'], some [0, 0, 0], some [0, 0, 0]⟩)
      [⟨"a", "x"⟩, ⟨"b", "y"⟩] 0 = .ok [1/10, 1/10] ∧
    ¬(([(1:ℚ)/10, 1/10].sum) ≤
      ([(0:ℚ), 0, 0].getD (([(0:ℚ), 0, 0]).length - 1) 0 + 1/10)) := by
  constructor
  · have h1 : "a".length = 1 := rfl
    have h2 : "b".length = 1 := rfl
    simp [compute_durations_from_alignment, durationsLoop, rangesFrom, h1, h2]
  · norm_num

/-- C2 amended: for valid `(alignment, scenes)` inputs whose per-scene
timing ranges are non-reversed, chain in scene order, start from
non-negative times and have monotone end times, the sum of the returned
durations is at most `end_times[-1] + len(scenes) * epsilon` (the per-scene
0.1 floor can add up to epsilon per scene, not a single epsilon overall),
and the length of the result equals the number of scenes. -/
theorem c2_amended_sum_bound
    (a : Alignment) (scenes : List Scene) (fb : ℚ)
    (characters : List Char) (start_times end_times : List ℚ)
    (hc : a.characters = some characters)
    (hs : a.character_start_times_seconds = some start_times)
    (he : a.character_end_times_seconds = some end_times)
    (hlen1 : characters.length = start_times.length)
    (hlen2 : start_times.length = end_times.length)
    (hpos : 0 < characters.length)
    (hne : scenes ≠ [])
    (hfit : ∀ r ∈ rangesFrom 0 scenes,
      r.1 < r.2 ∧ r.2 ≤ characters.length)
    (hnn : ∀ x ∈ start_times, 0 ≤ x)
    (hmono : end_times.Pairwise (· ≤ ·))
    (hord1 : ∀ r ∈ rangesFrom 0 scenes,
      start_times.getD r.1 0 ≤ end_times.getD (r.2 - 1) 0)
    (hord2 : (rangesFrom 0 scenes).Chain' (fun r1 r2 =>
      end_times.getD (r1.2 - 1) 0 ≤ start_times.getD r2.1 0)) :
    ∃ ds, compute_durations_from_alignment (some a) scenes fb = .ok ds ∧
      ds.length = scenes.length ∧
      ds.sum ≤ end_times.getD (end_times.length - 1) 0 +
        scenes.length * (1/10) := by
  refine ⟨_,
    (compute_durations_eq_loop a scenes fb characters start_times end_times
        hc hs he hlen1 hlen2 hpos hne).trans
      (durationsLoop_ok _ _ _ _ hfit), by simp [rangesFrom_length], ?_⟩
  have hrs : rangesFrom 0 scenes ≠ [] := by
    intro hnil
    have := rangesFrom_length scenes 0
    rw [hnil] at this
    exact hne (List.length_eq_zero.mp this.symm)
  obtain ⟨r0, rs, hcons⟩ := List.exists_cons_of_ne_nil hrs
  rw [hcons] at hord1 hord2 hfit ⊢
  have htel := sum_max_le_telescope start_times end_times rs r0 hord1 hord2
  have hlastmem : (r0 :: rs).getLast (List.cons_ne_nil r0 rs) ∈ r0 :: rs :=
    List.getLast_mem _
  obtain ⟨hl1, hl2⟩ := hfit _ hlastmem
  have hetlen : characters.length = end_times.length := hlen1.trans hlen2
  have hetpos : 0 < end_times.length := hetlen ▸ hpos
  have hde : end_times.getD
      (((r0 :: rs).getLast (List.cons_ne_nil r0 rs)).2 - 1) 0 ≤
      end_times.getD (end_times.length - 1) 0 := by
    apply pairwise_le_getD end_times hmono _ _ (by omega) (by omega)
  obtain ⟨h01, h02⟩ := hfit r0 (List.mem_cons_self r0 rs)
  have hstlen : r0.1 < start_times.length := by
    rw [← hlen1]; omega
  have hs0 : 0 ≤ start_times.getD r0.1 0 := by
    rw [List.getD_eq_getElem _ _ hstlen]
    exact hnn _ (List.getElem_mem hstlen)
  have hn : ((r0 :: rs).length : ℚ) = (scenes.length : ℚ) := by
    have := rangesFrom_length scenes 0
    rw [hcons] at this
    exact_mod_cast congrArg Nat.cast this
  calc ((r0 :: rs).map fun r =>
          max (1/10 : ℚ) (end_times.getD (r.2 - 1) 0 -
            start_times.getD r.1 0)).sum
      ≤ end_times.getD (((r0 :: rs).getLast (List.cons_ne_nil r0 rs)).2 - 1)
          0 - start_times.getD r0.1 0 + (r0 :: rs).length * (1/10) := htel
    _ ≤ end_times.getD (end_times.length - 1) 0 +
          scenes.length * (1/10) := by
        rw [← hn]; linarith

/-- Witness for C2's amended theorem at a concrete well-ordered alignment
for scenes "ab" and "c". -/
theorem c2_amended_sum_bound_witness :
    ∃ ds, compute_durations_from_alignment
        (some ⟨some ['a', 'b', ' ', 'c'],
          some [0, 1/2, 1, 3/2], some [1/2, 1, 3/2, 2]⟩)
        [⟨"ab", "x"⟩, ⟨"c", "y"⟩] 0 = .ok ds ∧
      ds.length = ([⟨"ab", "x"⟩, ⟨"c", "y"⟩] : List Scene).length ∧
      ds.sum ≤ [(1:ℚ)/2, 1, 3/2, 2].getD
          ([(1:ℚ)/2, 1, 3/2, 2].length - 1) 0 +
        ([⟨"ab", "x"⟩, ⟨"c", "y"⟩] : List Scene).length * (1/10) :=
  c2_amended_sum_bound _ _ 0 _ _ _ rfl rfl rfl rfl rfl
    (by decide) (by decide) (by decide)
    (by norm_num)
    (by norm_num [List.pairwise_cons])
    (by
      have h1 : "ab".length = 2 := rfl
      have h2 : "c".length = 1 := rfl
      simp only [rangesFrom, h1, h2, List.forall_mem_cons,
        List.forall_mem_nil]
      norm_num)
    (by
      have h1 : "ab".length = 2 := rfl
      have h2 : "c".length = 1 := rfl
      simp only [rangesFrom, h1, h2, List.chain'_cons, List.chain'_singleton]
      norm_num)

/-- The per-chunk character alignment on a TTS response
(`slop/voice.py`, chunked path): only the end times are consumed. -/
structure ChunkAlignment where
  character_end_times_seconds : List ℚ

/-- The fields of one chunk's `convert_with_timestamps` response that
`run_one` reads for timing (`slop/voice.py`, lines 384-390). -/
structure ChunkResponse where
  alignment : Option ChunkAlignment
  normalized_alignment : Option ChunkAlignment

/-- Duration extraction in `run_one` (`slop/voice.py`, lines 382-400): take
the response's `alignment`, falling back to `normalized_alignment`; the
duration is the last character end time, or 0.0 when no alignment or an
empty end-times array is available. -/
def chunk_duration (resp : ChunkResponse) : ℚ :=
  let align := match resp.alignment with
    | some a => some a
    | none => resp.normalized_alignment
  match align with
  | none => 0
  | some a =>
      match a.character_end_times_seconds.getLast? with
      | some t => t
      | none => 0

/-- Result collection in `synthesize_voice_with_alignment_chunked_async`
(`slop/voice.py`, lines 413-418): `durations_by_scene` starts as
`[0.0] * n` and each completed task's `(index, duration)` pair is written
at its own index, in whatever order the results arrive. -/
def collect_durations (n : Nat) (results : List (Nat × ℚ)) : List ℚ :=
  results.foldl (fun acc p => acc.set p.1 p.2) (List.replicate n 0)

theorem foldl_set_not_mem (results : List (Nat × ℚ)) :
    ∀ (init : List ℚ) (i : Nat), (∀ p ∈ results, p.1 ≠ i) →
      (results.foldl (fun acc p => acc.set p.1 p.2) init).getD i 0 =
        init.getD i 0 := by
  induction results with
  | nil => intro _ _ _; rfl
  | cons p ps ih =>
      intro init i h
      rw [List.foldl_cons,
        ih _ i (fun q hq => h q (List.mem_cons_of_mem p hq))]
      rw [List.getD_eq_getElem?_getD, List.getD_eq_getElem?_getD,
        List.getElem?_set_ne (h p (List.mem_cons_self p ps))]

theorem foldl_set_mem (results : List (Nat × ℚ)) :
    ∀ (init : List ℚ) (i : Nat) (d : ℚ),
      (results.map Prod.fst).Nodup → (i, d) ∈ results →
      i < init.length →
      (results.foldl (fun acc p => acc.set p.1 p.2) init).getD i 0 = d := by
  induction results with
  | nil => intro _ _ _ _ h _; simp at h
  | cons p ps ih =>
      intro init i d hnd hmem hlen
      rw [List.foldl_cons]
      rcases List.mem_cons.mp hmem with heq | hmem'
      · have hni : ∀ q ∈ ps, q.1 ≠ i := by
          intro q hq hqi
          have hnotin := (List.nodup_cons.mp hnd).1
          rw [← heq] at hnotin
          have hmm : q.1 ∈ ps.map Prod.fst := List.mem_map_of_mem Prod.fst hq
          rw [hqi] at hmm
          exact hnotin hmm
        rw [foldl_set_not_mem ps _ i hni, ← heq]
        have hlt : i < (init.set i d).length := by simpa using hlen
        rw [List.getD_eq_getElem _ _ hlt]
        exact List.getElem_set_self hlt
      · exact ih _ i d (List.nodup_cons.mp hnd).2 hmem' (by simpa using hlen)

/-- C5: in the chunked speech-synthesis path, the per-scene duration for
chunk `i` equals the last character end time of that chunk's own alignment
(each chunk's alignment starting at time 0), and the returned duration list
is indexed by original scene order for any completion order of the
concurrent chunk tasks (any permutation of the task results). -/
theorem c5_chunk_durations_order_independent
    (resp : Nat → ChunkResponse) (n : Nat) (results : List (Nat × ℚ))
    (hperm : results.Perm
      ((List.range n).map fun i => (i, chunk_duration (resp i)))) :
    ∀ i, i < n →
      (collect_durations n results).getD i 0 = chunk_duration (resp i) ∧
      ∀ a t, (resp i).alignment = some a →
        a.character_end_times_seconds.getLast? = some t →
        (collect_durations n results).getD i 0 = t := by
  intro i hi
  have hkeys : (results.map Prod.fst).Nodup := by
    have hmap : ((List.range n).map fun i =>
        (i, chunk_duration (resp i))).map Prod.fst = List.range n := by
      simp [List.map_map, Function.comp_def]
    have hp := hperm.map Prod.fst
    rw [hmap] at hp
    exact hp.nodup_iff.mpr (List.nodup_range n)
  have hmem : (i, chunk_duration (resp i)) ∈ results :=
    hperm.mem_iff.mpr
      (List.mem_map_of_mem _ (List.mem_range.mpr hi))
  have hmain : (collect_durations n results).getD i 0 =
      chunk_duration (resp i) :=
    foldl_set_mem results (List.replicate n 0) i _ hkeys hmem
      (by simpa using hi)
  refine ⟨hmain, ?_⟩
  intro a t ha ht
  rw [hmain]
  simp [chunk_duration, ha, ht]

/-- Witness for C5: two chunks whose results arrive in reversed order
still fill the duration list by scene index, each entry the last end time
of its own chunk's alignment. -/
theorem c5_chunk_durations_order_independent_witness :
    (collect_durations 2 [(1, 7), (0, 5)]).getD 0 0 =
      chunk_duration ⟨some ⟨[5]⟩, none⟩ ∧
    (collect_durations 2 [(1, 7), (0, 5)]).getD 1 0 =
      chunk_duration ⟨some ⟨[7]⟩, none⟩ ∧
    (collect_durations 2 [(1, 7), (0, 5)]).getD 0 0 = 5 ∧
    (collect_durations 2 [(1, 7), (0, 5)]).getD 1 0 = 7 :=
  ⟨(c5_chunk_durations_order_independent
      (fun i => if i = 0 then ⟨some ⟨[5]⟩, none⟩ else ⟨some ⟨[7]⟩, none⟩)
      2 [(1, 7), (0, 5)] (by decide) 0 (by decide)).1,
    (c5_chunk_durations_order_independent
      (fun i => if i = 0 then ⟨some ⟨[5]⟩, none⟩ else ⟨some ⟨[7]⟩, none⟩)
      2 [(1, 7), (0, 5)] (by decide) 1 (by decide)).1,
    (c5_chunk_durations_order_independent
      (fun i => if i = 0 then ⟨some ⟨[5]⟩, none⟩ else ⟨some ⟨[7]⟩, none⟩)
      2 [(1, 7), (0, 5)] (by decide) 0 (by decide)).2 ⟨[5]⟩ 5 rfl rfl,
    (c5_chunk_durations_order_independent
      (fun i => if i = 0 then ⟨some ⟨[5]⟩, none⟩ else ⟨some ⟨[7]⟩, none⟩)
      2 [(1, 7), (0, 5)] (by decide) 1 (by decide)).2 ⟨[7]⟩ 7 rfl rfl⟩

/-- A line of the ffmpeg concat manifest written by `stitch_video`
(`slop/stitch.py`, lines 133-140): either `file <path>` or
`duration <seconds>`. -/
inductive ManifestLine where
  | file (path : String)
  | duration (d : ℚ)
deriving DecidableEq

/-- The zip loop of `stitch_video`'s manifest writer (`slop/stitch.py`,
lines 134-137): one `file` line and one `duration` line per
`(image, duration)` pair. -/
def manifest_pairs : List (String × ℚ) → List ManifestLine
  | [] => []
  | (p, d) :: rest => .file p :: .duration d :: manifest_pairs rest

/-- The concat manifest written by `stitch_video` (`slop/stitch.py`,
lines 133-140): the zipped `file`/`duration` pairs followed by the last
image repeated once with no duration line to flush concat demuxer timing.
`none` models the IndexError Python would raise on `image_paths[-1]` for an
empty list. -/
def build_concat_list (image_paths : List String) (durations : List ℚ) :
    Option (List ManifestLine) :=
  match image_paths.getLast? with
  | none => none
  | some last =>
      some (manifest_pairs (image_paths.zip durations) ++ [.file last])

theorem manifest_pairs_length (ps : List (String × ℚ)) :
    (manifest_pairs ps).length = 2 * ps.length := by
  induction ps with
  | nil => rfl
  | cons p rest ih =>
      obtain ⟨p1, p2⟩ := p
      simp only [manifest_pairs, List.length_cons, ih]
      omega

theorem manifest_pairs_getD (ps : List (String × ℚ)) :
    ∀ i, i < ps.length →
      (manifest_pairs ps).getD (2 * i) (.file "") =
        .file (ps.getD i ("", 0)).1 ∧
      (manifest_pairs ps).getD (2 * i + 1) (.file "") =
        .duration (ps.getD i ("", 0)).2 := by
  induction ps with
  | nil => intro i h; simp at h
  | cons p rest ih =>
      intro i h
      obtain ⟨p1, p2⟩ := p
      cases i with
      | zero => simp [manifest_pairs]
      | succ i =>
          have h2 : 2 * (i + 1) = 2 * i + 1 + 1 := by ring
          have h3 : 2 * (i + 1) + 1 = (2 * i + 1) + 1 + 1 := by ring
          have := ih i (by simpa using h)
          simp only [manifest_pairs, h2, h3, List.getD_cons_succ,
            List.getD_cons_zero] at this ⊢
          exact this

/-- C6: given N images and N positive durations, the concat manifest built
for the compositor consists of exactly N `file`/`duration` line pairs in
original order followed by one final repeated `file` line for the last
image with no duration line — `2N + 1` lines total. -/
theorem c6_manifest_shape (image_paths : List String) (durations : List ℚ)
    (hlen : image_paths.length = durations.length)
    (hne : image_paths ≠ []) :
    ∃ lines last, image_paths.getLast? = some last ∧
      build_concat_list image_paths durations = some lines ∧
      lines.length = 2 * image_paths.length + 1 ∧
      (∀ i, i < image_paths.length →
        lines.getD (2 * i) (.file "") = .file (image_paths.getD i "") ∧
        lines.getD (2 * i + 1) (.file "") =
          .duration (durations.getD i 0)) ∧
      lines.getD (2 * image_paths.length) (.file "") = .file last := by
  obtain ⟨last, hlast⟩ := Option.ne_none_iff_exists'.mp
    (mt List.getLast?_eq_none_iff.mp hne)
  have hziplen : (image_paths.zip durations).length = image_paths.length := by
    simp [List.length_zip, hlen]
  have hplen : (manifest_pairs (image_paths.zip durations)).length =
      2 * image_paths.length := by
    rw [manifest_pairs_length, hziplen]
  refine ⟨_, last, hlast, by rw [build_concat_list, hlast], ?_, ?_, ?_⟩
  · simp [hplen]
  · intro i hi
    have hzi : i < (image_paths.zip durations).length := by omega
    have hz : (image_paths.zip durations).getD i ("", 0) =
        (image_paths.getD i "", durations.getD i 0) := by
      rw [List.getD_eq_getElem _ _ hzi, List.getElem_zip,
        List.getD_eq_getElem _ _ (by omega),
        List.getD_eq_getElem _ _ (by omega)]
    obtain ⟨hg1, hg2⟩ := manifest_pairs_getD (image_paths.zip durations) i
      (by omega)
    have hb1 : 2 * i < (manifest_pairs (image_paths.zip durations)).length :=
      by omega
    have hb2 : 2 * i + 1 <
        (manifest_pairs (image_paths.zip durations)).length := by omega
    constructor
    · rw [List.getD_eq_getElem _ _ (by simp; omega),
        List.getElem_append_left hb1, ← List.getD_eq_getElem _ (.file "") hb1,
        hg1, hz]
    · rw [List.getD_eq_getElem _ _ (by simp; omega),
        List.getElem_append_left hb2, ← List.getD_eq_getElem _ (.file "") hb2,
        hg2, hz]
  · rw [List.getD_eq_getElem _ _ (by simp [hplen])]
    rw [List.getElem_append_right (by omega)]
    simp [hplen]

/-- Witness for C6 at the claim's example: 3 images A, B, C with durations
1.5, 2.0, 0.75 produce the seven lines
file A / duration 1.5 / file B / duration 2.0 / file C / duration 0.75
/ file C. -/
theorem c6_manifest_shape_witness :
    build_concat_list ["A", "B", "C"] [3/2, 2, 3/4] =
      some [.file "A", .duration (3/2), .file "B", .duration 2,
        .file "C", .duration (3/4), .file "C"] ∧
    (∃ lines last, (["A", "B", "C"] : List String).getLast? = some last ∧
      build_concat_list ["A", "B", "C"] [3/2, 2, 3/4] = some lines ∧
      lines.length = 2 * (["A", "B", "C"] : List String).length + 1 ∧
      (∀ i, i < (["A", "B", "C"] : List String).length →
        lines.getD (2 * i) (.file "") =
          .file ((["A", "B", "C"] : List String).getD i "") ∧
        lines.getD (2 * i + 1) (.file "") =
          .duration (([3/2, 2, 3/4] : List ℚ).getD i 0)) ∧
      lines.getD (2 * (["A", "B", "C"] : List String).length) (.file "") =
        .file last) :=
  ⟨rfl, c6_manifest_shape ["A", "B", "C"] [3/2, 2, 3/4] rfl (by decide)⟩

/-- The model ids rejected up front by the chunked synthesizer
(`slop/voice.py`, line 300). -/
def unsupported_models : List String := ["eleven_v3"]

/-- The two errors `synthesize_voice_with_alignment_chunked_async` can
raise before any synthesis request is submitted (`slop/voice.py`,
lines 281-305). -/
inductive SynthError where
  | emptyScenes
  | unsupportedModel (model_id : String)
deriving DecidableEq

/-- The request payload built by `run_one` for scene `i`
(`slop/voice.py`, lines 340-356): neighbouring scripts are attached as
`previous_text`/`next_text` only when present and non-empty (Python
truthiness of `if previous_text:`). -/
structure SynthRequest where
  voice_id : String
  text : String
  model_id : String
  output_format : String
  previous_text : Option String
  next_text : Option String
deriving DecidableEq

def chunk_request (voice_id model_id output_format : String)
    (scenes : List Scene) (i : Nat) : SynthRequest :=
  let previous_text :=
    if 0 < i then some (scenes.getD (i - 1) default).script else none
  let next_text :=
    if i + 1 < scenes.length then some (scenes.getD (i + 1) default).script
    else none
  { voice_id := voice_id
    text := (scenes.getD i default).script
    model_id := model_id
    output_format := output_format
    previous_text := match previous_text with
      | some t => if t = "" then none else some t
      | none => none
    next_text := match next_text with
      | some t => if t = "" then none else some t
      | none => none }

/-- `synthesize_voice_with_alignment_chunked_async` (`slop/voice.py`,
lines 258-450) reduced to its decision structure: the empty-scenes guard,
then the unsupported-model guard, then one synthesis request per scene.
An `Except.error` means the coroutine raises before submitting any
synthesis request or writing any audio chunk. -/
def synthesize_chunked_requests (voice_id model_id output_format : String)
    (scenes : List Scene) : Except SynthError (List SynthRequest) :=
  if scenes.isEmpty then .error .emptyScenes
  else if model_id ∈ unsupported_models then
    .error (.unsupportedModel model_id)
  else .ok ((List.range scenes.length).map
    (chunk_request voice_id model_id output_format scenes))

theorem chunked_unsupported_error (voice_id model_id output_format : String)
    (scenes : List Scene) (hne : scenes ≠ [])
    (hm : model_id ∈ unsupported_models) :
    synthesize_chunked_requests voice_id model_id output_format scenes =
      .error (.unsupportedModel model_id) := by
  have hemp : scenes.isEmpty = false := by
    cases scenes with
    | nil => exact absurd rfl hne
    | cons x xs => rfl
  rw [synthesize_chunked_requests, hemp]
  simp [hm]

/-- C7: for every model configuration in the known unsupported set, the
chunked synthesizer detects it up front and raises the
unsupported-model error before submitting any of the per-scene synthesis
requests (the request list is never produced). -/
theorem c7_unsupported_model_fails_fast
    (voice_id model_id output_format : String) (scenes : List Scene)
    (hne : scenes ≠ []) (hm : model_id ∈ unsupported_models) :
    synthesize_chunked_requests voice_id model_id output_format scenes =
      .error (.unsupportedModel model_id) :=
  chunked_unsupported_error voice_id model_id output_format scenes hne hm

/-- Witness for C7 at a concrete scene list and the unsupported model id. -/
theorem c7_unsupported_model_fails_fast_witness :
    synthesize_chunked_requests "v" "eleven_v3" "mp3_44100_128"
      [⟨"hello", "img"⟩] = .error (.unsupportedModel "eleven_v3") :=
  c7_unsupported_model_fails_fast "v" "eleven_v3" "mp3_44100_128"
    [⟨"hello", "img"⟩] (by decide) (by decide)

/-- The `AppConfig` defaults from `slop/config.py` consumed by the
pipeline (string/number knobs; the optional voice-setting floats do not
influence the guards verified here). -/
structure AppConfig where
  duration_seconds : Nat := 120
  fps : Nat := 24
  resolution_width : Nat := 1024
  resolution_height : Nat := 1536
  num_images : Nat := 12
  voice_id : String := "Bx2lBwIZJBilRBVc3AGO"
  chat_model : String := "gpt-4o-mini"
  scene_llm_model : String := "gpt-4o-mini"
  image_model : String := "gpt-image-1"
  tts_model_id : String := "eleven_v3"
  tts_output_format : String := "mp3_44100_128"

/-- `AppConfig()` with all defaults, as constructed by the pipeline. -/
def default_app_config : AppConfig := {}

/-- C10: the default `AppConfig.tts_model_id` value "eleven_v3" is exactly
a member of the chunked synthesizer's unsupported-models set, so every call
to `synthesize_voice_with_alignment_chunked_async` on a non-empty scene
list under the default configuration raises the unsupported-model error
before issuing any synthesis request or writing any audio chunk. -/
theorem c10_default_config_unsupported :
    default_app_config.tts_model_id ∈ unsupported_models ∧
    ∀ (voice_id output_format : String) (scenes : List Scene),
      scenes ≠ [] →
      synthesize_chunked_requests voice_id default_app_config.tts_model_id
        output_format scenes = .error (.unsupportedModel "eleven_v3") :=
  ⟨by decide, fun voice_id output_format scenes hne =>
    chunked_unsupported_error voice_id _ output_format scenes hne
      (by decide)⟩

/-- Witness for C10 at a concrete scene list under the default config. -/
theorem c10_default_config_unsupported_witness :
    default_app_config.tts_model_id ∈ unsupported_models ∧
    synthesize_chunked_requests "v" default_app_config.tts_model_id
      "mp3_44100_128" [⟨"hello", "img"⟩] =
      .error (.unsupportedModel "eleven_v3") :=
  ⟨c10_default_config_unsupported.1,
    c10_default_config_unsupported.2 "v" "mp3_44100_128"
      [⟨"hello", "img"⟩] (by decide)⟩

/-- `stop_after_attempt(3)` on `_generate_single_image_openai_async`
(`slop/images.py`, line 34): the fixed retry attempt cap. -/
def retry_attempt_cap : Nat := 3

/-- The tenacity retry wrapper around one image generation call: the
attempts (modelled as an oracle from attempt number to an optional result;
`none` = that attempt raised) are tried in order and the first success is
returned; `none` overall means the call exhausted its retry budget and the
wrapped coroutine raises. -/
def retry_first_success (attempt : Nat → Option String) (cap : Nat) :
    Option String :=
  (List.range cap).findSome? attempt

/-- `_generate_images_async_openai` (`slop/images.py`, lines 262-280) over
a list of prompt indices: each index runs the retried single-image call
(`run_one` re-raises any failure rather than substituting a placeholder),
and `asyncio.gather` propagates the failure of any task, so the batch
either errors or returns one path per prompt in original index order. -/
def gather_images (attempts : Nat → Nat → Option String) :
    List Nat → Except String (List String)
  | [] => .ok []
  | i :: rest =>
      match retry_first_success (attempts i) retry_attempt_cap with
      | none => .error "image generation failed after retries"
      | some path =>
          match gather_images attempts rest with
          | .error e => .error e
          | .ok paths => .ok (path :: paths)

/-- The full batch call for `n` prompts, indices `0 .. n-1`
(`tasks = [run_one(i, p) for i, p in enumerate(prompts)]`). -/
def generate_images_batch (attempts : Nat → Nat → Option String)
    (n : Nat) : Except String (List String) :=
  gather_images attempts (List.range n)

theorem gather_images_error_of_mem (attempts : Nat → Nat → Option String) :
    ∀ (l : List Nat) (i : Nat), i ∈ l →
      retry_first_success (attempts i) retry_attempt_cap = none →
      ∃ e, gather_images attempts l = .error e := by
  intro l
  induction l with
  | nil => intro i h; simp at h
  | cons j rest ih =>
      intro i hmem hnone
      rcases List.mem_cons.mp hmem with rfl | hmem'
      · exact ⟨"image generation failed after retries",
          by simp only [gather_images, hnone]⟩
      · cases hj : retry_first_success (attempts j) retry_attempt_cap with
        | none => exact ⟨"image generation failed after retries",
            by simp only [gather_images, hj]⟩
        | some p =>
            obtain ⟨e, he⟩ := ih i hmem' hnone
            exact ⟨e, by simp only [gather_images, hj, he]⟩

/-- C8: if any one of the N image-generation tasks exhausts its retry
budget (every attempt up to the fixed cap fails), the batch call errors
rather than returning N or fewer image paths; no placeholder image is
substituted for the failed scene. -/
theorem c8_retry_exhaustion_propagates
    (attempts : Nat → Nat → Option String) (n i : Nat) (hi : i < n)
    (hfail : ∀ k, k < retry_attempt_cap → attempts i k = none) :
    (∃ e, generate_images_batch attempts n = .error e) ∧
    ∀ paths, generate_images_batch attempts n ≠ .ok paths := by
  have hnone : retry_first_success (attempts i) retry_attempt_cap = none := by
    rw [retry_first_success]
    rw [List.findSome?_eq_none_iff]
    intro k hk
    exact hfail k (List.mem_range.mp hk)
  obtain ⟨e, he⟩ := gather_images_error_of_mem attempts (List.range n) i
    (List.mem_range.mpr hi) hnone
  refine ⟨⟨e, he⟩, ?_⟩
  intro paths hok
  rw [generate_images_batch] at hok
  rw [hok] at he
  exact Except.noConfusion he

/-- Witness for C8: two prompts whose first task fails all three
attempts. -/
theorem c8_retry_exhaustion_propagates_witness :
    (∃ e, generate_images_batch (fun _ _ => none) 2 = .error e) ∧
    ∀ paths, generate_images_batch (fun _ _ => none) 2 ≠ .ok paths :=
  c8_retry_exhaustion_propagates (fun _ _ => none) 2 0 (by decide)
    (fun _ _ => rfl)

/-- The PIL color modes distinguished by the alpha-flattening step of
`_generate_single_image_openai_async` (`slop/images.py`, lines 61-75);
`one` stands for PIL's "1" bilevel mode. -/
inductive ImageMode where
  | one | L | P | RGB | RGBA | CMYK | YCbCr | LA | I | F
deriving DecidableEq

/-- Whether a PIL mode carries an alpha channel. -/
def hasAlpha : ImageMode → Bool
  | .RGBA => true
  | .LA => true
  | _ => false

/-- The shape of a decoded PIL image as far as the flattening step reads
it: its color mode and its size. -/
structure PILImage where
  mode : ImageMode
  width : Nat
  height : Nat
deriving DecidableEq

/-- The branch body inside the `try` block of
`_generate_single_image_openai_async`'s post-processing
(`slop/images.py`, lines 63-73): RGBA/LA/P images are pasted onto a fresh
black RGB background of the same size (the alpha band as mask for
RGBA/LA), any other non-RGB mode is converted with `im.convert("RGB")`,
and RGB images are left unchanged. -/
def ensure_no_alpha (im : PILImage) : PILImage :=
  if im.mode = .RGBA ∨ im.mode = .LA ∨ im.mode = .P then
    { mode := .RGB, width := im.width, height := im.height }
  else if im.mode ≠ .RGB then
    { mode := .RGB, width := im.width, height := im.height }
  else im

/-- The whole post-processing step including its `try/except Exception:
pass` (`slop/images.py`, lines 61-75): the provider image has already been
written to `out_path`, and if any operation of the block raises — the
`from PIL import Image` import (Pillow being unavailable is contemplated
at line 27 of the same file), `Image.open`, `paste`, or the re-`save` —
the exception is swallowed and the file is returned as written, without
flattening.  `pil_block_raises` models whether the block raises. -/
def saved_image (pil_block_raises : Bool) (im : PILImage) : PILImage :=
  if pil_block_raises then im else ensure_no_alpha im

/-- C9 counterexample: when the PIL block raises (for example Pillow is
not importable) on an RGBA provider response, the returned image file
keeps its alpha channel, refuting the claim that every returned image is
alpha-free. -/
theorem c9_counterexample :
    hasAlpha (saved_image true ⟨.RGBA, 1024, 1536⟩).mode = true := rfl

/-- C9 amended: whenever the PIL flattening block completes without
raising, the returned image has no alpha channel — for every provider
mode including RGBA, LA and palette images — and its size is preserved;
when any step of the block raises, the exception is swallowed and the
image is returned exactly as written from the provider response, possibly
still carrying alpha. -/
theorem c9_amended_no_alpha_on_success (im : PILImage) :
    (hasAlpha (saved_image false im).mode = false ∧
      (saved_image false im).width = im.width ∧
      (saved_image false im).height = im.height) ∧
    saved_image true im = im := by
  refine ⟨?_, rfl⟩
  obtain ⟨mode, w, h⟩ := im
  cases mode <;> simp [saved_image, ensure_no_alpha, hasAlpha]

end Slop
